import Mathlib

/-!
# Verification development for `src/ufop/unzip.go`

The file embeds the two methods of `UnZipper`:

* `parse`, the command parser, together with the library functions it calls
  (`regexp.Match` on the fixed pattern, `strings.Split`,
  `base64.URLEncoding.DecodeString`, `strconv.ParseInt`);
* `Do`, the unzip operation, as a function that threads an explicit trace of
  the calls made to the outside world.

Go strings are byte sequences; a byte is a natural number below 256.
-/

set_option maxRecDepth 100000

namespace Ufop

/-- A Go string: its sequence of bytes. -/
abbrev GoString := List Nat

/-- Bytes of an ASCII literal. -/
def ascii (s : String) : GoString := s.toList.map Char.toNat

/-! ## Library functions used by `parse` -/

/-- Items of a bracket expression of a regular expression, as read by Go's
`regexp/syntax` (`parseClass` / `parseClassRange`, Perl flags) when the body has
no escape, negation or named class: an item is a single character, or a range
`lo-hi` when the character after `lo` is `-` and that `-` is not the last
character of the body.  A range with `hi < lo` is a compile error (`none`). -/
def parseClassBody : List Nat → Option (List (Nat × Nat))
  | [] => some []
  | [lo] => some [(lo, lo)]
  | [lo, x] => some [(lo, lo), (x, x)]
  | lo :: m :: hi :: rest =>
    if m = 45 then
      if hi < lo then none
      else (parseClassBody rest).map (fun rs => (lo, hi) :: rs)
    else (parseClassBody (m :: hi :: rest)).map (fun rs => (lo, lo) :: rs)

/-- All bytes of the closed range `lo..hi`. -/
def rangeBytes (r : Nat × Nat) : List Nat :=
  (List.range (r.2 + 1 - r.1)).map (fun i => r.1 + i)

/-- Bytes accepted by a bracket expression with the given body. -/
def classBytes (body : String) : Option (List Nat) :=
  (parseClassBody (ascii body)).map (fun rs => rs.flatMap rangeBytes)

/-- Regular expression accepting exactly one byte out of the list. -/
def anyOf : List Nat → RegularExpression Nat
  | [] => 0
  | c :: cs => RegularExpression.char c + anyOf cs

/-- Regular expression accepting exactly the given literal. -/
def lit : List Nat → RegularExpression Nat
  | [] => 1
  | c :: cs => RegularExpression.char c * lit cs

/-- The pattern of `parse`,
`^unzip/bucket/[a-zA-Z-_=]+(/overwrite/[0|1]){0,1}$`, between its anchors.
`x+` is `x x*` and `x{0,1}` is `ε | x`. -/
def patternBody : Option (RegularExpression Nat) :=
  match classBytes "a-zA-Z-_=", classBytes "0|1" with
  | some tok, some ow =>
    some (lit (ascii "unzip/bucket/") * ((anyOf tok * (anyOf tok).star) *
      (1 + lit (ascii "/overwrite/") * anyOf ow)))
  | _, _ => none

/-- Result `matched` of `regexp.Match(pattern, []byte(cmd))`.  The pattern has no
`m` flag, so `^` and `$` match only at the two ends of the text and the
unanchored search is a match of the whole text.  All characters of the pattern
are ASCII and a byte of a multi-byte or invalid UTF-8 sequence is never ASCII,
so matching runes is matching bytes.  A pattern that does not compile gives
`false` (the error is dropped by the caller). -/
def regexpMatch (cmd : GoString) : Bool :=
  match patternBody with
  | some re => re.rmatch cmd
  | none => false

/-- Segments of `strings.Split(s, "/")`. -/
def splitSlash : GoString → List GoString
  | [] => [[]]
  | c :: cs =>
    if c = 47 then [] :: splitSlash cs
    else
      match splitSlash cs with
      | [] => [[c]]
      | h :: t => (c :: h) :: t

/-- Decode map of `base64.URLEncoding`: the sextet of a byte of the alphabet
`A-Z a-z 0-9 - _`, `none` for every other byte (`0xff` in Go). -/
def decodeMap (c : Nat) : Option Nat :=
  if 65 ≤ c ∧ c ≤ 90 then some (c - 65)
  else if 97 ≤ c ∧ c ≤ 122 then some (c - 97 + 26)
  else if 48 ≤ c ∧ c ≤ 57 then some (c - 48 + 52)
  else if c = 45 then some 62
  else if c = 95 then some 63
  else none

/-- The `dlen - 1` bytes that `decodeQuantum` stores for `dlen` sextets
(`dlen` is 2, 3 or 4; missing sextets are zero). -/
def quantumBytes (dbuf : List Nat) : List Nat :=
  let val := dbuf.getD 0 0 * 2 ^ 18 + dbuf.getD 1 0 * 2 ^ 12 + dbuf.getD 2 0 * 2 ^ 6
    + dbuf.getD 3 0
  [val / 2 ^ 16 % 256, val / 2 ^ 8 % 256, val % 256].take (dbuf.length - 1)

/-- Skips the newline bytes `\n` and `\r`. -/
def skipNewlines : GoString → GoString
  | [] => []
  | c :: cs => if c = 10 ∨ c = 13 then skipNewlines cs else c :: cs

/-- Decoding loop of `Encoding.Decode` with `decodeQuantum` for the padded,
non-strict `URLEncoding`; `dbuf` holds the sextets of the quantum being read.
`none` is a `CorruptInputError`. -/
def decodeLoop : List Nat → GoString → Option (List Nat)
  | dbuf, [] => if dbuf = [] then some [] else none
  | dbuf, c :: rest =>
    match decodeMap c with
    | some v =>
      if dbuf.length = 3 then (decodeLoop [] rest).map (fun bs => quantumBytes (dbuf ++ [v]) ++ bs)
      else decodeLoop (dbuf ++ [v]) rest
    | none =>
      if c = 10 ∨ c = 13 then decodeLoop dbuf rest
      else if c ≠ 61 then none
      else if dbuf.length < 2 then none
      else if dbuf.length = 2 then
        match skipNewlines rest with
        | [] => none
        | p :: rest2 =>
          if p ≠ 61 then none
          else if skipNewlines rest2 = [] then some (quantumBytes dbuf) else none
      else if skipNewlines rest = [] then some (quantumBytes dbuf) else none

/-- Model of `base64.URLEncoding.DecodeString`; `none` when it returns an error. -/
def decodeString (s : GoString) : Option GoString := decodeLoop [] s

/-- Value of a string of decimal digits, `none` if some byte is not a digit. -/
def parseDigits : Nat → GoString → Option Nat
  | acc, [] => some acc
  | acc, c :: cs => if 48 ≤ c ∧ c ≤ 57 then parseDigits (acc * 10 + (c - 48)) cs else none

/-- Model of `strconv.ParseInt(s, 10, 64)`; `none` when it returns an error
(syntax error or value out of the int64 range). -/
def parseInt (s : GoString) : Option Int :=
  let body : Bool × GoString :=
    match s with
    | 43 :: r => (false, r)
    | 45 :: r => (true, r)
    | _ => (false, s)
  if body.2 = [] then none
  else
    match parseDigits 0 body.2 with
    | none => none
    | some n =>
      if body.1 then (if n ≤ 2 ^ 63 then some (-(n : Int)) else none)
      else (if n < 2 ^ 63 then some (n : Int) else none)

/-! ## `UnZipper.parse` -/

/-- Return values `(bucket, overwrite, err)` of `parse`; `err = none` is `nil`. -/
structure ParseRet where
  bucket : GoString
  overwrite : Bool
  err : Option String
deriving DecidableEq, Repr

/-- Embedding of `UnZipper.parse`. -/
def parse (cmd : GoString) : ParseRet :=
  if !regexpMatch cmd then ⟨[], false, some "invalid unzip command format"⟩
  else
    let items := splitSlash cmd
    match (if items.length ≥ 3 then decodeString (items.getD 2 []) else some []) with
    | none => ⟨[], false, some "invalid unzip parameter 'bucket'"⟩
    | some bucket =>
      if items.length = 5 then
        match parseInt (items.getD 4 []) with
        | none => ⟨bucket, false, some "invalid unzip parameter 'overwrite'"⟩
        | some overwriteVal => ⟨bucket, decide (overwriteVal = 1), none⟩
      else ⟨bucket, false, none⟩

/-- Bytes of the token class `[a-zA-Z-_=]`. -/
def tokenBytes : List Nat := (classBytes "a-zA-Z-_=").getD []

/-- Bytes of the overwrite class `[0|1]`. -/
def overwriteBytes : List Nat := (classBytes "0|1").getD []

/-! ## Library functions and collaborators used by `Do` -/

/-- Model of `utf8.Valid`.  `need` is the number of continuation bytes still
expected and `lo..hi` the range allowed for the next one (Go's accept ranges:
no overlong form, no surrogate, nothing above U+10FFFF). -/
def utf8ValidFrom : Nat → Nat → Nat → GoString → Bool
  | need, _, _, [] => decide (need = 0)
  | 0, _, _, b :: rest =>
    if b < 0x80 then utf8ValidFrom 0 0 0 rest
    else if 0xC2 ≤ b ∧ b ≤ 0xDF then utf8ValidFrom 1 0x80 0xBF rest
    else if b = 0xE0 then utf8ValidFrom 2 0xA0 0xBF rest
    else if b = 0xED then utf8ValidFrom 2 0x80 0x9F rest
    else if 0xE1 ≤ b ∧ b ≤ 0xEF then utf8ValidFrom 2 0x80 0xBF rest
    else if b = 0xF0 then utf8ValidFrom 3 0x90 0xBF rest
    else if 0xF1 ≤ b ∧ b ≤ 0xF3 then utf8ValidFrom 3 0x80 0xBF rest
    else if b = 0xF4 then utf8ValidFrom 3 0x80 0x8F rest
    else false
  | need + 1, lo, hi, b :: rest =>
    if lo ≤ b ∧ b ≤ hi then utf8ValidFrom need 0x80 0xBF rest else false

/-- Model of `utf8.Valid([]byte(s))`. -/
def utf8Valid (s : GoString) : Bool := utf8ValidFrom 0 0 0 s

/-- Modelled from the spec: the request type `UfopRequest` is declared in another
file of the package; `Do` reads the fields `Cmd`, `Src.MimeType` and `Src.Url`
(the spec's `{ command, source: { mimeType, url } }`). -/
structure UfopRequestSrc where
  MimeType : GoString
  Url : GoString
deriving DecidableEq, Repr

/-- Modelled from the spec: see `UfopRequestSrc`. -/
structure UfopRequest where
  Cmd : GoString
  Src : UfopRequestSrc
deriving DecidableEq, Repr

/-- Embedding of `UnZipFile`; an empty string is Go's zero value. -/
structure UnZipFile where
  Key : GoString
  Hash : GoString
  Error : String
deriving DecidableEq, Repr

/-- Embedding of `UnZipResult`; `Files = none` is the nil slice. -/
structure UnZipResult where
  Files : Option (List UnZipFile)
deriving DecidableEq, Repr

/-- Go's `append(s, x)` on a slice that may be nil. -/
def goAppend (s : Option (List UnZipFile)) (x : UnZipFile) : Option (List UnZipFile) :=
  some (s.getD [] ++ [x])

/-- What `zipFile.Open()` followed by `ioutil.ReadAll` gives for an entry. -/
inductive ZipContent where
  | openError
  | readError
  | data (unzipData : GoString)
deriving DecidableEq, Repr

/-- An entry `*zip.File` of the decoded archive, as `Do` observes it: the header
name, `FileInfo().IsDir()`, `FileInfo().Size()` (an int64) and its content. -/
structure ZipFile where
  Name : GoString
  IsDir : Bool
  Size : Int
  Content : ZipContent
deriving DecidableEq, Repr

/-- The fields of `rio.Settings` that `Do` sets. -/
structure Settings where
  ChunkSize : Nat
  Workers : Nat
deriving DecidableEq, Repr

/-- What `http.Get` followed by `ioutil.ReadAll` of the body gives. -/
inductive FetchResult where
  | getError
  | readError
  | body (respData : GoString)
deriving DecidableEq, Repr

/-- A call made by `Do` to a collaborator, with the answer it got.  For the two
uploads `ret = none` is a non-nil error and `ret = some h` is a nil error with
`PutRet.Hash = h`. -/
inductive Event where
  | httpGet (url : GoString) (res : FetchResult)
  | token (scope : GoString) (uptoken : GoString)
  | fioPut (uptoken key data : GoString) (ret : Option GoString)
  | rioPut (settings : Settings) (uptoken key data : GoString) (fsize : Int)
      (ret : Option GoString)
deriving DecidableEq, Repr

/-- The collaborators of `Do`.  The answer of a call that reaches outside the
process may depend on every call made before it, so it is a function of the
trace so far and of the arguments.  `zipNewReader` is `zip.NewReader` on the
fetched bytes (`none`: error); `iconvOpen` is `iconv.Open("utf-8", "gbk")`
(`none`: error, otherwise the converter's `ConvString`). -/
structure World where
  httpGet : List Event → GoString → FetchResult
  zipNewReader : GoString → Option (List ZipFile)
  iconvOpen : Option (GoString → GoString)
  token : List Event → GoString → GoString
  fioPut : List Event → GoString → GoString → GoString → Option GoString
  rioPut : List Event → Settings → GoString → GoString → GoString → Int → Option GoString

/-! ## `UnZipper.Do` -/

/-- Return values `(result, err)` of `Do` (`none` is `nil`) and the calls made. -/
structure DoRet where
  result : Option UnZipResult
  err : Option String
  trace : List Event
deriving DecidableEq, Repr

/-- The `for _, zipFile := range zipFiles` loop of `Do`.  The loop variables
that outlive an iteration are `policy.Scope`, `unzipResult` and the trace. -/
def unzipLoop (w : World) (cd : GoString → GoString) (bucket : GoString) (overwrite : Bool)
    (rputSettings : Settings) (rputThreshold : Int) :
    List ZipFile → GoString → UnZipResult → List Event → DoRet
  | [], _, unzipResult, tr => ⟨some unzipResult, none, tr⟩
  | zipFile :: rest, scope, unzipResult, tr =>
    let fileName := if !utf8Valid zipFile.Name then cd zipFile.Name else zipFile.Name
    let fileSize := zipFile.Size
    if zipFile.IsDir then
      unzipLoop w cd bucket overwrite rputSettings rputThreshold rest scope unzipResult tr
    else
      match zipFile.Content with
      | .openError => ⟨none, some "open zip file content failed", tr⟩
      | .readError => ⟨none, some "unzip the file content failed", tr⟩
      | .data unzipData =>
        let scope1 := if overwrite then bucket ++ ascii ":" ++ fileName else scope
        let uptoken := w.token tr scope1
        let tr1 := tr ++ [Event.token scope1 uptoken]
        if fileSize ≤ rputThreshold then
          let ret := w.fioPut tr1 uptoken fileName unzipData
          let unzipFile : UnZipFile :=
            match ret with
            | none => ⟨fileName, [], "save unzip file to bucket error"⟩
            | some hash => ⟨fileName, hash, ""⟩
          unzipLoop w cd bucket overwrite rputSettings rputThreshold rest scope1
            ⟨goAppend unzipResult.Files unzipFile⟩
            (tr1 ++ [Event.fioPut uptoken fileName unzipData ret])
        else
          let ret := w.rioPut tr1 rputSettings uptoken fileName unzipData fileSize
          let unzipFile : UnZipFile :=
            match ret with
            | none => ⟨fileName, [], "save unzip file to bucket error"⟩
            | some hash => ⟨fileName, hash, ""⟩
          unzipLoop w cd bucket overwrite rputSettings rputThreshold rest scope1
            ⟨goAppend unzipResult.Files unzipFile⟩
            (tr1 ++ [Event.rioPut rputSettings uptoken fileName unzipData fileSize ret])

/-- Embedding of `UnZipper.Do`. -/
def Do (w : World) (req : UfopRequest) : DoRet :=
  if req.Src.MimeType ≠ ascii "application/zip" then
    ⟨none, some "unsupported mimetype to unzip", []⟩
  else
    let p := parse req.Cmd
    match p.err with
    | some pErr => ⟨none, some pErr, []⟩
    | none =>
      let res := w.httpGet [] req.Src.Url
      let tr := [Event.httpGet req.Src.Url res]
      match res with
      | .getError => ⟨none, some "retrieve resource data failed", tr⟩
      | .readError => ⟨none, some "read resource data failed", tr⟩
      | .body respData =>
        match w.zipNewReader respData with
        | none => ⟨none, some "invalid zip file", tr⟩
        | some zipFiles =>
          match w.iconvOpen with
          | none => ⟨none, some "create charset converter error", tr⟩
          | some cd =>
            unzipLoop w cd p.bucket p.overwrite ⟨4 * 1024 * 1024, 1⟩ (100 * 1024 * 1024)
              zipFiles p.bucket ⟨some []⟩ tr

/-! ## Views of an archive and of a trace, used to state the properties -/

/-- The result key of an entry: its name, converted when it is not valid UTF-8. -/
def entryKey (cd : GoString → GoString) (zipFile : ZipFile) : GoString :=
  if utf8Valid zipFile.Name then zipFile.Name else cd zipFile.Name

/-- The non-directory entries, in archive order. -/
def fileEntries (zipFiles : List ZipFile) : List ZipFile :=
  zipFiles.filter (fun zipFile => !zipFile.IsDir)

/-- The transport of an upload. -/
inductive Transport where
  | singleShot
  | chunked (settings : Settings)
deriving DecidableEq, Repr

/-- The upload calls of a trace: transport, key and answer. -/
def uploads : List Event → List (Transport × GoString × Option GoString)
  | [] => []
  | .fioPut _ key _ ret :: tr => (.singleShot, key, ret) :: uploads tr
  | .rioPut settings _ key _ _ ret :: tr => (.chunked settings, key, ret) :: uploads tr
  | _ :: tr => uploads tr

/-- The scopes of the token derivations of a trace. -/
def tokenScopes : List Event → List GoString
  | [] => []
  | .token scope _ :: tr => scope :: tokenScopes tr
  | _ :: tr => tokenScopes tr

/-- The tokens answered by the token derivations of a trace. -/
def tokenAnswers : List Event → List GoString
  | [] => []
  | .token _ uptoken :: tr => uptoken :: tokenAnswers tr
  | _ :: tr => tokenAnswers tr

/-- The tokens presented by the upload calls of a trace. -/
def uploadTokens : List Event → List GoString
  | [] => []
  | .fioPut uptoken _ _ _ :: tr => uptoken :: uploadTokens tr
  | .rioPut _ uptoken _ _ _ _ :: tr => uptoken :: uploadTokens tr
  | _ :: tr => uploadTokens tr

/-- The outcome recorded for an upload with the given key and answer. -/
def outcomeOf (key : GoString) (ret : Option GoString) : UnZipFile :=
  match ret with
  | none => ⟨key, [], "save unzip file to bucket error"⟩
  | some hash => ⟨key, hash, ""⟩

/-- The upload call made for an entry, with the answer of the world. -/
def uploadEvent (w : World) (rputSettings : Settings) (rputThreshold : Int) (tr1 : List Event)
    (uptoken key data : GoString) (fsize : Int) : Event :=
  if fsize ≤ rputThreshold then .fioPut uptoken key data (w.fioPut tr1 uptoken key data)
  else .rioPut rputSettings uptoken key data fsize
    (w.rioPut tr1 rputSettings uptoken key data fsize)

/-- The answer carried by an upload event. -/
def eventRet : Event → Option GoString
  | .fioPut _ _ _ ret => ret
  | .rioPut _ _ _ _ _ ret => ret
  | _ => none

/-- The scope that the claim on scopes expects for an entry. -/
def expectedScope (cd : GoString → GoString) (bucket : GoString) (overwrite : Bool)
    (zipFile : ZipFile) : GoString :=
  if overwrite then bucket ++ ascii ":" ++ entryKey cd zipFile else bucket

/-- All non-directory entries can be opened and read. -/
def Readable (zipFiles : List ZipFile) : Prop :=
  ∀ zipFile ∈ zipFiles, zipFile.IsDir = false → ∃ d, zipFile.Content = .data d

/-! ## Sample inputs -/

/-- An archive with a directory, a small file, a file of exactly the threshold
size, a file of 150 MiB and a file just above the threshold whose name is the
GBK encoding of one Chinese character. -/
def sampleArchive : List ZipFile :=
  [⟨ascii "d/", true, 0, .data []⟩,
   ⟨ascii "a.txt", false, 10, .data (ascii "0123456789")⟩,
   ⟨ascii "b.txt", false, 104857600, .data (ascii "x")⟩,
   ⟨ascii "big.bin", false, 157286400, .data (ascii "y")⟩,
   ⟨[0xD6, 0xD0], false, 104857601, .data (ascii "z")⟩]

/-- The converter of the sample world: it knows one GBK name. -/
def sampleConv (s : GoString) : GoString :=
  if s = [0xD6, 0xD0] then [0xE4, 0xB8, 0xAD] else s

/-- A world that serves `sampleArchive` and in which the uploads of `b.txt` and
`big.bin` fail. -/
def sampleWorld : World where
  httpGet := fun _ _ => .body (ascii "PK")
  zipNewReader := fun _ => some sampleArchive
  iconvOpen := some sampleConv
  token := fun _ scope => ascii "token " ++ scope
  fioPut := fun _ _ key _ => if key = ascii "b.txt" then none else some (ascii "hash " ++ key)
  rioPut := fun _ _ _ key _ _ =>
    if key = ascii "big.bin" then none else some (ascii "hash " ++ key)

/-- An archive whose second file cannot be read. -/
def brokenArchive : List ZipFile :=
  [⟨ascii "a.txt", false, 10, .data (ascii "0123456789")⟩,
   ⟨ascii "b.txt", false, 10, .readError⟩,
   ⟨ascii "c.txt", false, 10, .data (ascii "0123456789")⟩]

/-- A world that serves `brokenArchive` and in which every upload succeeds. -/
def brokenWorld : World where
  httpGet := fun _ _ => .body (ascii "PK")
  zipNewReader := fun _ => some brokenArchive
  iconvOpen := some sampleConv
  token := fun _ scope => ascii "token " ++ scope
  fioPut := fun _ _ key _ => some (ascii "hash " ++ key)
  rioPut := fun _ _ _ key _ _ => some (ascii "hash " ++ key)

/-- The request `unzip/bucket/<base64url("mybucket")>` on a zip source. -/
def sampleRequest : UfopRequest :=
  ⟨ascii "unzip/bucket/bXlidWNrZXQ=", ⟨ascii "application/zip", ascii "http://src/a.zip"⟩⟩

/-- A request with a malformed command on a source that is not a zip. -/
def textRequest : UfopRequest :=
  ⟨ascii "unzip/basket", ⟨ascii "text/plain", ascii "http://src/a.txt"⟩⟩

/-- A request with a malformed command on a zip source. -/
def malformedRequest : UfopRequest :=
  ⟨ascii "unzip/basket", ⟨ascii "application/zip", ascii "http://src/a.zip"⟩⟩

/-! ## Facts about the pattern -/

theorem classBytes_token : classBytes "a-zA-Z-_=" = some tokenBytes := by decide

theorem classBytes_overwrite : classBytes "0|1" = some overwriteBytes := by decide

theorem overwriteBytes_eq : overwriteBytes = [48, 124, 49] := by decide

theorem tokenBytes_spec :
    ∀ c ∈ tokenBytes, c ≠ 47 ∧ c ≠ 10 ∧ c ≠ 13 ∧ ¬ (48 ≤ c ∧ c ≤ 57) := by decide

theorem lit_rmatch (l x : List Nat) : (lit l).rmatch x = true ↔ x = l := by
  induction l generalizing x with
  | nil => simp [lit, RegularExpression.one_rmatch_iff]
  | cons c cs ih =>
    simp only [lit, RegularExpression.mul_rmatch_iff, RegularExpression.char_rmatch_iff, ih]
    constructor
    · rintro ⟨t, u, rfl, rfl, rfl⟩
      rfl
    · rintro rfl
      exact ⟨[c], cs, rfl, rfl, rfl⟩

theorem anyOf_rmatch (l x : List Nat) : (anyOf l).rmatch x = true ↔ ∃ c ∈ l, x = [c] := by
  induction l with
  | nil => simp [anyOf, RegularExpression.zero_rmatch]
  | cons c cs ih =>
    simp only [anyOf, RegularExpression.add_rmatch_iff, RegularExpression.char_rmatch_iff, ih]
    simp

theorem plus_rmatch (l x : List Nat) :
    (anyOf l * (anyOf l).star).rmatch x = true ↔ x ≠ [] ∧ ∀ c ∈ x, c ∈ l := by
  rw [RegularExpression.mul_rmatch_iff]
  constructor
  · rintro ⟨t, u, rfl, ht, hu⟩
    obtain ⟨c, hc, rfl⟩ := (anyOf_rmatch l t).1 ht
    obtain ⟨S, rfl, hS⟩ := (RegularExpression.star_rmatch_iff _ _).1 hu
    refine ⟨by simp, ?_⟩
    intro d hd
    simp only [List.singleton_append, List.mem_cons, List.mem_flatten] at hd
    rcases hd with rfl | ⟨s, hs, hds⟩
    · exact hc
    · obtain ⟨e, he, rfl⟩ := (anyOf_rmatch l s).1 (hS s hs).2
      simp only [List.mem_singleton] at hds
      exact hds ▸ he
  · rintro ⟨hne, hall⟩
    cases x with
    | nil => exact absurd rfl hne
    | cons c cs =>
      refine ⟨[c], cs, rfl, (anyOf_rmatch l [c]).2 ⟨c, hall c (by simp), rfl⟩, ?_⟩
      rw [RegularExpression.star_rmatch_iff]
      refine ⟨cs.map (fun d => [d]), ?_, ?_⟩
      · clear hne hall
        induction cs with
        | nil => rfl
        | cons d ds ih => simpa [List.flatten] using ih
      · intro t ht
        simp only [List.mem_map] at ht
        obtain ⟨d, hd, rfl⟩ := ht
        exact ⟨by simp, (anyOf_rmatch l [d]).2 ⟨d, hall d (by simp [hd]), rfl⟩⟩

/-- The commands accepted by the pattern. -/
theorem regexpMatch_iff (cmd : GoString) :
    regexpMatch cmd = true ↔
      ∃ tok ow, cmd = ascii "unzip/bucket/" ++ (tok ++ ow) ∧ tok ≠ [] ∧
        (∀ c ∈ tok, c ∈ tokenBytes) ∧
        (ow = [] ∨ ∃ d ∈ overwriteBytes, ow = ascii "/overwrite/" ++ [d]) := by
  have hp : patternBody = some (lit (ascii "unzip/bucket/") *
      ((anyOf tokenBytes * (anyOf tokenBytes).star) *
        (1 + lit (ascii "/overwrite/") * anyOf overwriteBytes))) := by
    unfold patternBody
    rw [classBytes_token, classBytes_overwrite]
  unfold regexpMatch
  rw [hp]
  show RegularExpression.rmatch _ cmd = true ↔ _
  rw [RegularExpression.mul_rmatch_iff]
  constructor
  · rintro ⟨t, u, rfl, ht, hu⟩
    rw [lit_rmatch] at ht
    rw [RegularExpression.mul_rmatch_iff] at hu
    obtain ⟨tok, ow, rfl, htok, how⟩ := hu
    rw [plus_rmatch] at htok
    rw [RegularExpression.add_rmatch_iff, RegularExpression.one_rmatch_iff,
      RegularExpression.mul_rmatch_iff] at how
    refine ⟨tok, ow, by rw [ht], htok.1, htok.2, ?_⟩
    rcases how with h | ⟨a, b, rfl, ha, hb⟩
    · exact Or.inl h
    · rw [lit_rmatch] at ha
      obtain ⟨d, hd, rfl⟩ := (anyOf_rmatch _ _).1 hb
      exact Or.inr ⟨d, hd, by rw [ha]⟩
  · rintro ⟨tok, ow, rfl, hne, hall, how⟩
    refine ⟨_, _, rfl, (lit_rmatch _ _).2 rfl, ?_⟩
    rw [RegularExpression.mul_rmatch_iff]
    refine ⟨tok, ow, rfl, (plus_rmatch _ _).2 ⟨hne, hall⟩, ?_⟩
    rw [RegularExpression.add_rmatch_iff, RegularExpression.one_rmatch_iff,
      RegularExpression.mul_rmatch_iff]
    rcases how with h | ⟨d, hd, rfl⟩
    · exact Or.inl h
    · exact Or.inr ⟨_, _, rfl, (lit_rmatch _ _).2 rfl, (anyOf_rmatch _ _).2 ⟨d, hd, rfl⟩⟩

theorem splitSlash_noslash (t : GoString) (h : ∀ c ∈ t, c ≠ 47) : splitSlash t = [t] := by
  induction t with
  | nil => rfl
  | cons c cs ih =>
    have hc : c ≠ 47 := h c (by simp)
    have hcs : ∀ d ∈ cs, d ≠ 47 := fun d hd => h d (by simp [hd])
    simp [splitSlash, hc, ih hcs]

theorem splitSlash_append (t r : GoString) (h : ∀ c ∈ t, c ≠ 47) :
    splitSlash (t ++ 47 :: r) = t :: splitSlash r := by
  induction t with
  | nil => simp [splitSlash]
  | cons c cs ih =>
    have hc : c ≠ 47 := h c (by simp)
    have hcs : ∀ d ∈ cs, d ≠ 47 := fun d hd => h d (by simp [hd])
    simp [splitSlash, hc, ih hcs]

/-- Segments of a command accepted by the pattern. -/
theorem splitSlash_of_match (cmd : GoString) (h : regexpMatch cmd = true) :
    ∃ tok, tok ≠ [] ∧ (∀ c ∈ tok, c ∈ tokenBytes) ∧
      (splitSlash cmd = [ascii "unzip", ascii "bucket", tok] ∨
        ∃ d ∈ overwriteBytes,
          splitSlash cmd = [ascii "unzip", ascii "bucket", tok, ascii "overwrite", [d]]) := by
  obtain ⟨tok, ow, rfl, hne, hall, how⟩ := (regexpMatch_iff cmd).1 h
  have htok : ∀ c ∈ tok, c ≠ 47 := fun c hc => (tokenBytes_spec c (hall c hc)).1
  have h1 : ∀ r, splitSlash (ascii "unzip/bucket/" ++ r)
      = ascii "unzip" :: ascii "bucket" :: splitSlash r := by
    intro r
    have e : ascii "unzip/bucket/" ++ r = ascii "unzip" ++ 47 :: (ascii "bucket" ++ 47 :: r) := by
      simp [ascii]
    rw [e, splitSlash_append _ _ (by decide), splitSlash_append _ _ (by decide)]
  refine ⟨tok, hne, hall, ?_⟩
  rcases how with rfl | ⟨d, hd, rfl⟩
  · left
    rw [h1, List.append_nil, splitSlash_noslash tok htok]
  · right
    refine ⟨d, hd, ?_⟩
    have e : tok ++ (ascii "/overwrite/" ++ [d]) = tok ++ 47 :: (ascii "overwrite" ++ 47 :: [d]) := by
      simp [ascii]
    have hd47 : ∀ c ∈ [d], c ≠ 47 := by
      rw [overwriteBytes_eq] at hd
      intro c hc
      simp only [List.mem_singleton] at hc
      subst hc
      simp only [List.mem_cons, List.mem_singleton, List.not_mem_nil, or_false] at hd
      omega
    rw [h1, e, splitSlash_append _ _ htok, splitSlash_append _ _ (by decide),
      splitSlash_noslash _ hd47]

theorem parseInt_overwriteByte (d : Nat) (hd : d ∈ overwriteBytes) :
    parseInt [d] = if d = 124 then none else some ((d : Int) - 48) := by
  rw [overwriteBytes_eq] at hd
  simp only [List.mem_cons, List.mem_singleton, List.not_mem_nil, or_false] at hd
  rcases hd with rfl | rfl | rfl <;> decide

theorem quantumBytes_length (dbuf : List Nat) :
    (quantumBytes dbuf).length = min (dbuf.length - 1) 3 := by
  simp [quantumBytes]

/-- A successful decoding of a non-empty input without newline bytes gives at
least one byte. -/
theorem decodeLoop_ne_nil (s : GoString) (hs : ∀ c ∈ s, c ≠ 10 ∧ c ≠ 13) :
    ∀ (dbuf : List Nat) (b : List Nat), (dbuf ≠ [] ∨ s ≠ []) →
      decodeLoop dbuf s = some b → b ≠ [] := by
  induction s with
  | nil =>
    intro dbuf b hne hdec
    rcases hne with h | h
    · simp [decodeLoop, h] at hdec
    · exact absurd rfl h
  | cons c rest ih =>
    intro dbuf b _ hdec
    have hc := hs c (by simp)
    have hrest : ∀ d ∈ rest, d ≠ 10 ∧ d ≠ 13 := fun d hd => hs d (by simp [hd])
    have hlen : ∀ l : List Nat, 2 ≤ l.length → quantumBytes l ≠ [] := by
      intro l hl h0
      have := quantumBytes_length l
      rw [h0] at this
      simp at this
      omega
    unfold decodeLoop at hdec
    split at hdec
    · rename_i v _
      split at hdec
      · rename_i h3
        simp only [Option.map_eq_some'] at hdec
        obtain ⟨bs, _, rfl⟩ := hdec
        intro h0
        exact hlen (dbuf ++ [v]) (by simp [h3]) (List.append_eq_nil.1 h0).1
      · exact ih hrest (dbuf ++ [v]) b (Or.inl (by simp)) hdec
    · rw [if_neg (by omega)] at hdec
      split at hdec
      · exact absurd hdec (by simp)
      · split at hdec
        · exact absurd hdec (by simp)
        · split at hdec
          · rename_i h2
            split at hdec
            · exact absurd hdec (by simp)
            · split at hdec
              · exact absurd hdec (by simp)
              · split at hdec
                · simp only [Option.some.injEq] at hdec
                  exact hdec ▸ hlen dbuf (by omega)
                · exact absurd hdec (by simp)
          · split at hdec
            · simp only [Option.some.injEq] at hdec
              exact hdec ▸ hlen dbuf (by omega)
            · exact absurd hdec (by simp)

/-- Result of `parse` on a command accepted by the pattern. -/
theorem parse_of_match (cmd : GoString) (h : regexpMatch cmd = true) :
    ∃ tok, tok ≠ [] ∧ (∀ c ∈ tok, c ∈ tokenBytes) ∧
      ((splitSlash cmd = [ascii "unzip", ascii "bucket", tok] ∧
          parse cmd = match decodeString tok with
            | none => ⟨[], false, some "invalid unzip parameter 'bucket'"⟩
            | some bucket => ⟨bucket, false, none⟩) ∨
        ∃ d ∈ overwriteBytes,
          splitSlash cmd = [ascii "unzip", ascii "bucket", tok, ascii "overwrite", [d]] ∧
          parse cmd = match decodeString tok with
            | none => ⟨[], false, some "invalid unzip parameter 'bucket'"⟩
            | some bucket =>
              if d = 124 then ⟨bucket, false, some "invalid unzip parameter 'overwrite'"⟩
              else ⟨bucket, decide (d = 49), none⟩) := by
  obtain ⟨tok, hne, hall, hsplit⟩ := splitSlash_of_match cmd h
  refine ⟨tok, hne, hall, ?_⟩
  rcases hsplit with hs | ⟨d, hd, hs⟩
  · left
    refine ⟨hs, ?_⟩
    unfold parse
    simp only [h, hs]
    rcases hdec : decodeString tok with _ | b <;> simp [hdec]
  · right
    refine ⟨d, hd, hs, ?_⟩
    unfold parse
    simp only [h, hs]
    rcases hdec : decodeString tok with _ | b
    · simp [hdec]
    · have hp := parseInt_overwriteByte d hd
      rw [overwriteBytes_eq] at hd
      simp only [List.mem_cons, List.mem_singleton, List.not_mem_nil, or_false] at hd
      rcases hd with rfl | rfl | rfl <;> simp [hp, hdec]

/-! ## Facts about the loop of `Do` -/

theorem uploads_append (a b : List Event) : uploads (a ++ b) = uploads a ++ uploads b := by
  induction a with
  | nil => rfl
  | cons e es ih => cases e <;> simp [uploads, ih]

theorem tokenScopes_append (a b : List Event) :
    tokenScopes (a ++ b) = tokenScopes a ++ tokenScopes b := by
  induction a with
  | nil => rfl
  | cons e es ih => cases e <;> simp [tokenScopes, ih]

theorem tokenAnswers_append (a b : List Event) :
    tokenAnswers (a ++ b) = tokenAnswers a ++ tokenAnswers b := by
  induction a with
  | nil => rfl
  | cons e es ih => cases e <;> simp [tokenAnswers, ih]

theorem uploadTokens_append (a b : List Event) :
    uploadTokens (a ++ b) = uploadTokens a ++ uploadTokens b := by
  induction a with
  | nil => rfl
  | cons e es ih => cases e <;> simp [uploadTokens, ih]

theorem unzipLoop_cons_dir (w : World) (cd : GoString → GoString) (bucket : GoString)
    (overwrite : Bool) (st : Settings) (th : Int) (zf : ZipFile) (rest : List ZipFile)
    (scope : GoString) (res : UnZipResult) (tr : List Event) (hdir : zf.IsDir = true) :
    unzipLoop w cd bucket overwrite st th (zf :: rest) scope res tr
      = unzipLoop w cd bucket overwrite st th rest scope res tr := by
  simp [unzipLoop, hdir]

theorem unzipLoop_cons_data (w : World) (cd : GoString → GoString) (bucket : GoString)
    (overwrite : Bool) (st : Settings) (th : Int) (zf : ZipFile) (rest : List ZipFile)
    (scope : GoString) (res : UnZipResult) (tr : List Event) (d : GoString)
    (hdir : zf.IsDir = false) (hd : zf.Content = .data d) :
    unzipLoop w cd bucket overwrite st th (zf :: rest) scope res tr
      = unzipLoop w cd bucket overwrite st th rest
          (if overwrite then bucket ++ ascii ":" ++ entryKey cd zf else scope)
          ⟨goAppend res.Files (outcomeOf (entryKey cd zf)
            (eventRet (uploadEvent w st th
              (tr ++ [Event.token (if overwrite then bucket ++ ascii ":" ++ entryKey cd zf
                else scope) (w.token tr
                  (if overwrite then bucket ++ ascii ":" ++ entryKey cd zf else scope))])
              (w.token tr (if overwrite then bucket ++ ascii ":" ++ entryKey cd zf else scope))
              (entryKey cd zf) d zf.Size)))⟩
          (tr ++ [Event.token (if overwrite then bucket ++ ascii ":" ++ entryKey cd zf
                else scope) (w.token tr
                  (if overwrite then bucket ++ ascii ":" ++ entryKey cd zf else scope))]
            ++ [uploadEvent w st th
              (tr ++ [Event.token (if overwrite then bucket ++ ascii ":" ++ entryKey cd zf
                else scope) (w.token tr
                  (if overwrite then bucket ++ ascii ":" ++ entryKey cd zf else scope))])
              (w.token tr (if overwrite then bucket ++ ascii ":" ++ entryKey cd zf else scope))
              (entryKey cd zf) d zf.Size]) := by
  have hk : (if (!utf8Valid zf.Name) = true then cd zf.Name else zf.Name) = entryKey cd zf := by
    unfold entryKey
    cases utf8Valid zf.Name <;> simp
  rw [unzipLoop]
  simp only [hdir, hd, hk, Bool.false_eq_true, if_false]
  by_cases hsz : zf.Size ≤ th
  · simp only [hsz, if_true, uploadEvent, eventRet, outcomeOf]
  · simp only [hsz, if_false, uploadEvent, eventRet, outcomeOf]

theorem unzipLoop_cons_fail (w : World) (cd : GoString → GoString) (bucket : GoString)
    (overwrite : Bool) (st : Settings) (th : Int) (zf : ZipFile) (rest : List ZipFile)
    (scope : GoString) (res : UnZipResult) (tr : List Event)
    (hdir : zf.IsDir = false) (hd : ¬ ∃ d, zf.Content = .data d) :
    ∃ e, unzipLoop w cd bucket overwrite st th (zf :: rest) scope res tr = ⟨none, some e, tr⟩ := by
  rw [unzipLoop]
  simp only [hdir, Bool.false_eq_true, if_false]
  rcases hc : zf.Content with _ | _ | d
  · exact ⟨_, rfl⟩
  · exact ⟨_, rfl⟩
  · exact absurd ⟨d, hc⟩ hd

theorem readable_cons (zf : ZipFile) (rest : List ZipFile) :
    Readable (zf :: rest) ↔
      (zf.IsDir = false → ∃ d, zf.Content = .data d) ∧ Readable rest := by
  simp [Readable]

/-- When some non-directory entry cannot be opened or read, the loop returns an
error and no result. -/
theorem unzipLoop_fail (w : World) (cd : GoString → GoString) (bucket : GoString)
    (overwrite : Bool) (st : Settings) (th : Int) (zfs : List ZipFile) :
    ∀ (scope : GoString) (res : UnZipResult) (tr : List Event), ¬ Readable zfs →
      (unzipLoop w cd bucket overwrite st th zfs scope res tr).result = none ∧
        ∃ e, (unzipLoop w cd bucket overwrite st th zfs scope res tr).err = some e := by
  induction zfs with
  | nil =>
    intro scope res tr h
    exact absurd (by simp [Readable]) h
  | cons zf rest ih =>
    intro scope res tr h
    rw [readable_cons] at h
    rcases hdir : zf.IsDir with _ | _
    · by_cases hd : ∃ d, zf.Content = .data d
      · obtain ⟨d, hd⟩ := hd
        rw [unzipLoop_cons_data w cd bucket overwrite st th zf rest scope res tr d hdir hd]
        exact ih _ _ _ (fun hr => h ⟨fun _ => ⟨d, hd⟩, hr⟩)
      · obtain ⟨e, he⟩ := unzipLoop_cons_fail w cd bucket overwrite st th zf rest scope res tr
          hdir hd
        rw [he]
        exact ⟨rfl, e, rfl⟩
    · rw [unzipLoop_cons_dir w cd bucket overwrite st th zf rest scope res tr hdir]
      exact ih _ _ _ (fun hr => h ⟨fun hf => by simp [hdir] at hf, hr⟩)

/-- When every non-directory entry can be read, the loop returns a result and
no error; the calls it adds to the trace and the outcomes it adds to the result
follow the non-directory entries one by one. -/
theorem unzipLoop_ok (w : World) (cd : GoString → GoString) (bucket : GoString)
    (overwrite : Bool) (st : Settings) (th : Int) (zfs : List ZipFile) :
    ∀ (scope : GoString) (files : List UnZipFile) (tr : List Event), Readable zfs →
      (overwrite = false → scope = bucket) →
      ∃ ext new,
        unzipLoop w cd bucket overwrite st th zfs scope ⟨some files⟩ tr
          = ⟨some ⟨some (files ++ new)⟩, none, tr ++ ext⟩ ∧
        tokenScopes ext = (fileEntries zfs).map (expectedScope cd bucket overwrite) ∧
        (uploads ext).map (fun u => (u.1, u.2.1))
          = (fileEntries zfs).map (fun zf =>
              (if zf.Size ≤ th then Transport.singleShot else Transport.chunked st,
                entryKey cd zf)) ∧
        new = (uploads ext).map (fun u => outcomeOf u.2.1 u.2.2) ∧
        uploadTokens ext = tokenAnswers ext := by
  induction zfs with
  | nil =>
    intro scope files tr _ _
    exact ⟨[], [], by simp [unzipLoop], rfl, rfl, rfl, rfl⟩
  | cons zf rest ih =>
    intro scope files tr h hscope
    rw [readable_cons] at h
    rcases hdir : zf.IsDir with _ | _
    · obtain ⟨d, hd⟩ := h.1 hdir
      rw [unzipLoop_cons_data w cd bucket overwrite st th zf rest scope ⟨some files⟩ tr d hdir hd]
      have hsc : (if overwrite = true then bucket ++ ascii ":" ++ entryKey cd zf else scope)
          = expectedScope cd bucket overwrite zf := by
        unfold expectedScope
        cases overwrite
        · simp [hscope rfl]
        · simp
      rw [hsc]
      have hscope1 : overwrite = false → expectedScope cd bucket overwrite zf = bucket := by
        intro ho
        simp [expectedScope, ho]
      generalize hscdef : expectedScope cd bucket overwrite zf = sc at hscope1 ⊢
      generalize w.token tr sc = tok
      have hev : ∀ ev, ev = uploadEvent w st th (tr ++ [Event.token sc tok]) tok
          (entryKey cd zf) d zf.Size →
          uploads [ev] = [(if zf.Size ≤ th then Transport.singleShot else Transport.chunked st,
            entryKey cd zf, eventRet ev)] ∧ tokenScopes [ev] = [] ∧
          uploadTokens [ev] = [tok] ∧ tokenAnswers [ev] = [] := by
        intro ev hev
        subst hev
        by_cases hsz : zf.Size ≤ th <;>
          simp [uploadEvent, hsz, uploads, tokenScopes, eventRet, uploadTokens, tokenAnswers]
      generalize uploadEvent w st th (tr ++ [Event.token sc tok]) tok
        (entryKey cd zf) d zf.Size = ev at hev ⊢
      obtain ⟨hevu, hevt, hevp, heva⟩ := hev ev rfl
      obtain ⟨ext, new, heq, htok, hup, hout, hpair⟩ := ih sc
        (files ++ [outcomeOf (entryKey cd zf) (eventRet ev)])
        (tr ++ [Event.token sc tok] ++ [ev]) h.2 hscope1
      refine ⟨[Event.token sc tok] ++ ([ev] ++ ext),
        outcomeOf (entryKey cd zf) (eventRet ev) :: new, ?_, ?_, ?_, ?_, ?_⟩
      · simp only [goAppend, Option.getD_some]
        rw [heq]
        simp
      · rw [tokenScopes_append, tokenScopes_append, htok, hevt]
        simp [fileEntries, List.filter_cons, hdir, tokenScopes, hscdef]
      · rw [uploads_append, uploads_append, List.map_append, List.map_append, hup, hevu]
        simp [fileEntries, List.filter_cons, hdir, uploads]
      · rw [uploads_append, uploads_append, hevu, hout]
        simp [uploads]
      · rw [uploadTokens_append, uploadTokens_append, tokenAnswers_append, tokenAnswers_append,
          hevp, heva, hpair]
        simp [uploadTokens, tokenAnswers]
    · rw [unzipLoop_cons_dir w cd bucket overwrite st th zf rest scope ⟨some files⟩ tr hdir]
      obtain ⟨ext, new, heq, htok, hup, hout, hpair⟩ := ih scope files tr h.2 hscope
      refine ⟨ext, new, heq, ?_, ?_, hout, hpair⟩
      · rw [htok]
        simp [fileEntries, List.filter_cons, hdir]
      · rw [hup]
        simp [fileEntries, List.filter_cons, hdir]

/-- Once the request is accepted and the archive fetched and decoded, `Do` is
its loop, started with the bucket as scope, an empty non-nil list of files and
the fetch as only call. -/
theorem Do_eq_loop (w : World) (req : UfopRequest) (respData : GoString)
    (zipFiles : List ZipFile) (cd : GoString → GoString)
    (hmime : req.Src.MimeType = ascii "application/zip")
    (hparse : (parse req.Cmd).err = none)
    (hget : w.httpGet [] req.Src.Url = .body respData)
    (hzip : w.zipNewReader respData = some zipFiles)
    (hcd : w.iconvOpen = some cd) :
    Do w req = unzipLoop w cd (parse req.Cmd).bucket (parse req.Cmd).overwrite ⟨4194304, 1⟩
      104857600 zipFiles (parse req.Cmd).bucket ⟨some []⟩
      [Event.httpGet req.Src.Url (.body respData)] := by
  unfold Do
  simp only [hmime, ne_eq, not_true_eq_false, if_false, hparse, hget, hzip, hcd]
  norm_num

/-- A request that `Do` answers without error was accepted by the two guards. -/
theorem Do_guards (w : World) (req : UfopRequest) (h : (Do w req).err = none) :
    req.Src.MimeType = ascii "application/zip" ∧ (parse req.Cmd).err = none := by
  by_cases hmime : req.Src.MimeType = ascii "application/zip"
  · refine ⟨hmime, ?_⟩
    rcases hp : (parse req.Cmd).err with _ | e
    · rfl
    · unfold Do at h
      simp [hmime, hp] at h
  · unfold Do at h
    simp [hmime] at h

/-- The loop returns either an error and no result, or a result with a
non-nil list and no error. -/
theorem unzipLoop_exclusive (w : World) (cd : GoString → GoString) (bucket : GoString)
    (overwrite : Bool) (st : Settings) (th : Int) (zfs : List ZipFile) (scope : GoString)
    (files : List UnZipFile) (tr : List Event) :
    ((unzipLoop w cd bucket overwrite st th zfs scope ⟨some files⟩ tr).result = none ∧
        ∃ e, (unzipLoop w cd bucket overwrite st th zfs scope ⟨some files⟩ tr).err = some e) ∨
      ((unzipLoop w cd bucket overwrite st th zfs scope ⟨some files⟩ tr).err = none ∧
        ∃ fs, (unzipLoop w cd bucket overwrite st th zfs scope ⟨some files⟩ tr).result
          = some ⟨some fs⟩) := by
  by_cases hr : Readable zfs
  · right
    induction zfs generalizing scope files tr with
    | nil => exact ⟨rfl, files, rfl⟩
    | cons zf rest ih =>
      rw [readable_cons] at hr
      rcases hdir : zf.IsDir with _ | _
      · obtain ⟨d, hd⟩ := hr.1 hdir
        rw [unzipLoop_cons_data w cd bucket overwrite st th zf rest scope ⟨some files⟩ tr d
          hdir hd]
        simp only [goAppend, Option.getD_some]
        exact ih _ _ _ hr.2
      · rw [unzipLoop_cons_dir w cd bucket overwrite st th zf rest scope ⟨some files⟩ tr hdir]
        exact ih _ _ _ hr.2
  · left
    exact unzipLoop_fail w cd bucket overwrite st th zfs scope ⟨some files⟩ tr hr

/-- A run of `Do` without error went through the whole loop: every
non-directory entry was readable, and the return values and the trace are those
of `unzipLoop_ok`. -/
theorem Do_ok (w : World) (req : UfopRequest) (respData : GoString)
    (zipFiles : List ZipFile) (cd : GoString → GoString)
    (hget : w.httpGet [] req.Src.Url = .body respData)
    (hzip : w.zipNewReader respData = some zipFiles)
    (hcd : w.iconvOpen = some cd)
    (herr : (Do w req).err = none) :
    ∃ ext,
      Do w req = ⟨some ⟨some ((uploads ext).map (fun u => outcomeOf u.2.1 u.2.2))⟩, none,
        Event.httpGet req.Src.Url (.body respData) :: ext⟩ ∧
      tokenScopes ext = (fileEntries zipFiles).map
        (expectedScope cd (parse req.Cmd).bucket (parse req.Cmd).overwrite) ∧
      (uploads ext).map (fun u => (u.1, u.2.1))
        = (fileEntries zipFiles).map (fun zf =>
            (if zf.Size ≤ 104857600 then Transport.singleShot
              else Transport.chunked ⟨4194304, 1⟩, entryKey cd zf)) ∧
      uploadTokens ext = tokenAnswers ext := by
  obtain ⟨hmime, hparse⟩ := Do_guards w req herr
  have heq := Do_eq_loop w req respData zipFiles cd hmime hparse hget hzip hcd
  have hread : Readable zipFiles := by
    by_contra hr
    obtain ⟨_, e, he⟩ := unzipLoop_fail w cd (parse req.Cmd).bucket (parse req.Cmd).overwrite
      ⟨4194304, 1⟩ 104857600 zipFiles (parse req.Cmd).bucket ⟨some []⟩
      [Event.httpGet req.Src.Url (.body respData)] hr
    rw [← heq, herr] at he
    exact absurd he (by simp)
  obtain ⟨ext, new, hloop, htok, hup, hnew, hpair⟩ := unzipLoop_ok w cd (parse req.Cmd).bucket
    (parse req.Cmd).overwrite ⟨4194304, 1⟩ 104857600 zipFiles (parse req.Cmd).bucket []
    [Event.httpGet req.Src.Url (.body respData)] hread (fun _ => rfl)
  refine ⟨ext, ?_, htok, hup, hpair⟩
  rw [heq, hloop, hnew]
  simp

/-- The two return values of `Do` are never both set and never both nil. -/
theorem Do_exclusive (w : World) (req : UfopRequest) :
    ((Do w req).result = none ∧ ∃ e, (Do w req).err = some e) ∨
      ((Do w req).err = none ∧ ∃ fs, (Do w req).result = some ⟨some fs⟩) := by
  by_cases hmime : req.Src.MimeType = ascii "application/zip"
  · rcases hp : (parse req.Cmd).err with _ | e
    · rcases hget : w.httpGet [] req.Src.Url with _ | _ | respData
      · exact Or.inl (by simp [Do, hmime, hp, hget])
      · exact Or.inl (by simp [Do, hmime, hp, hget])
      · rcases hzip : w.zipNewReader respData with _ | zipFiles
        · exact Or.inl (by simp [Do, hmime, hp, hget, hzip])
        · rcases hcd : w.iconvOpen with _ | cd
          · exact Or.inl (by simp [Do, hmime, hp, hget, hzip, hcd])
          · rw [Do_eq_loop w req respData zipFiles cd hmime hp hget hzip hcd]
            exact unzipLoop_exclusive _ _ _ _ _ _ _ _ _ _
    · exact Or.inl (by simp [Do, hmime, hp])
  · exact Or.inl (by simp [Do, hmime])

/-! ## The command parser -/

/-- C1: when `parse` returns no error, the command splits on `/` into exactly 3
or exactly 5 segments, the bucket is the padded base64url decoding of the third
segment, and `overwrite` is true exactly when there is a fifth segment and it is
the literal `1`. -/
theorem parse_ok_segments (cmd : GoString) (h : (parse cmd).err = none) :
    ((splitSlash cmd).length = 3 ∨ (splitSlash cmd).length = 5) ∧
      (∃ third, (splitSlash cmd)[2]? = some third ∧
        decodeString third = some (parse cmd).bucket) ∧
      ((parse cmd).overwrite = true ↔ (splitSlash cmd)[4]? = some (ascii "1")) := by
  have hm : regexpMatch cmd = true := by
    by_contra hm
    simp [parse, hm] at h
  obtain ⟨tok, -, -, ⟨hs, hp⟩ | ⟨d, hd, hs, hp⟩⟩ := parse_of_match cmd hm
  · rcases hdec : decodeString tok with _ | b
    · rw [hp, hdec] at h
      exact absurd h (by simp)
    · rw [hp, hs, hdec]
      exact ⟨Or.inl rfl, ⟨tok, rfl, hdec⟩, by simp⟩
  · rcases hdec : decodeString tok with _ | b
    · rw [hp, hdec] at h
      exact absurd h (by simp)
    · rw [hdec] at hp
      rw [overwriteBytes_eq] at hd
      simp only [List.mem_cons, List.mem_singleton, List.not_mem_nil, or_false] at hd
      rcases hd with rfl | rfl | rfl
      · rw [hp, hs]
        exact ⟨Or.inr rfl, ⟨tok, rfl, hdec⟩, by simp [ascii]⟩
      · rw [hp] at h
        exact absurd h (by simp)
      · rw [hp, hs]
        exact ⟨Or.inr rfl, ⟨tok, rfl, hdec⟩, by simp [ascii]⟩

/-- C1 at the command `unzip/bucket/bXlidWNrZXQ=/overwrite/1`. -/
theorem parse_ok_segments_witness :
    (parse (ascii "unzip/bucket/bXlidWNrZXQ=/overwrite/1")).err = none ∧
      (((splitSlash (ascii "unzip/bucket/bXlidWNrZXQ=/overwrite/1")).length = 3 ∨
          (splitSlash (ascii "unzip/bucket/bXlidWNrZXQ=/overwrite/1")).length = 5) ∧
        (∃ third, (splitSlash (ascii "unzip/bucket/bXlidWNrZXQ=/overwrite/1"))[2]? = some third ∧
          decodeString third
            = some (parse (ascii "unzip/bucket/bXlidWNrZXQ=/overwrite/1")).bucket) ∧
        ((parse (ascii "unzip/bucket/bXlidWNrZXQ=/overwrite/1")).overwrite = true ↔
          (splitSlash (ascii "unzip/bucket/bXlidWNrZXQ=/overwrite/1"))[4]?
            = some (ascii "1"))) :=
  ⟨by decide, parse_ok_segments (ascii "unzip/bucket/bXlidWNrZXQ=/overwrite/1") (by decide)⟩

/-- C2 (failing input): `YnVja2V0MQ==` is the padded base64url token of
`bucket1`, and `parse` rejects the three commands of the grammar built on it
with the format error, because the token class of the pattern has no digit. -/
theorem parse_rejects_token_with_digit :
    decodeString (ascii "YnVja2V0MQ==") = some (ascii "bucket1") ∧
      (48 ∉ tokenBytes ∧ 57 ∉ tokenBytes) ∧
      parse (ascii "unzip/bucket/YnVja2V0MQ==")
        = ⟨[], false, some "invalid unzip command format"⟩ ∧
      parse (ascii "unzip/bucket/YnVja2V0MQ==/overwrite/0")
        = ⟨[], false, some "invalid unzip command format"⟩ ∧
      parse (ascii "unzip/bucket/YnVja2V0MQ==/overwrite/1")
        = ⟨[], false, some "invalid unzip command format"⟩ := by
  decide

/-- C3 (failing input): the overwrite value `|` is outside the grammar, yet
`parse` does not answer with the format error: the pattern accepts the command
and the error is the one of the `overwrite` parameter. -/
theorem parse_pipe_overwrite_not_format_error :
    regexpMatch (ascii "unzip/bucket/bXlidWNrZXQ=/overwrite/|") = true ∧
      parse (ascii "unzip/bucket/bXlidWNrZXQ=/overwrite/|")
        = ⟨ascii "mybucket", false, some "invalid unzip parameter 'overwrite'"⟩ ∧
      (parse (ascii "unzip/bucket/bXlidWNrZXQ=/overwrite/|")).err
        ≠ some "invalid unzip command format" := by
  decide

/-- C9: the bucket of a command parsed without error has at least one byte, and
an accepted command whose token is made only of `=` gets the error of the
`bucket` parameter. -/
theorem parse_bucket_nonempty (cmd : GoString) :
    ((parse cmd).err = none → 1 ≤ (parse cmd).bucket.length) ∧
      (regexpMatch cmd = true → (∃ n, (splitSlash cmd)[2]? = some (List.replicate n 61)) →
        (parse cmd).err = some "invalid unzip parameter 'bucket'") := by
  constructor
  · intro h
    have hm : regexpMatch cmd = true := by
      by_contra hm
      simp [parse, hm] at h
    obtain ⟨tok, hne, hall, hcases⟩ := parse_of_match cmd hm
    have hnl : ∀ c ∈ tok, c ≠ 10 ∧ c ≠ 13 := fun c hc =>
      ⟨(tokenBytes_spec c (hall c hc)).2.1, (tokenBytes_spec c (hall c hc)).2.2.1⟩
    have hb : ∀ b, decodeString tok = some b → 1 ≤ b.length := by
      intro b hdec
      have := decodeLoop_ne_nil tok hnl [] b (Or.inr hne) hdec
      exact List.length_pos.2 this
    rcases hcases with ⟨-, hp⟩ | ⟨d, -, -, hp⟩
    · rcases hdec : decodeString tok with _ | b
      · rw [hp, hdec] at h
        exact absurd h (by simp)
      · rw [hp, hdec]
        exact hb b hdec
    · rcases hdec : decodeString tok with _ | b
      · rw [hp, hdec] at h
        exact absurd h (by simp)
      · rw [hdec] at hp
        by_cases h124 : d = 124
        · rw [hp] at h
          simp [h124] at h
        · rw [hp]
          simpa [h124] using hb b hdec
  · rintro hm ⟨n, hn⟩
    obtain ⟨tok, hne, -, hcases⟩ := parse_of_match cmd hm
    have htok : tok = List.replicate n 61 := by
      rcases hcases with ⟨hs, -⟩ | ⟨d, -, hs, -⟩ <;>
        · rw [hs] at hn
          simpa using hn
    have hdec : decodeString tok = none := by
      subst htok
      cases n with
      | zero => exact absurd rfl hne
      | succ k => simp [decodeString, List.replicate_succ, decodeLoop, decodeMap]
    rcases hcases with ⟨-, hp⟩ | ⟨d, -, -, hp⟩ <;>
      · rw [hp, hdec]

/-- C9 at the commands `unzip/bucket/bXlidWNrZXQ=` and `unzip/bucket/====`. -/
theorem parse_bucket_nonempty_witness :
    (parse (ascii "unzip/bucket/bXlidWNrZXQ=")).err = none ∧
      1 ≤ (parse (ascii "unzip/bucket/bXlidWNrZXQ=")).bucket.length ∧
      regexpMatch (ascii "unzip/bucket/====") = true ∧
      (parse (ascii "unzip/bucket/====")).err = some "invalid unzip parameter 'bucket'" :=
  ⟨by decide,
    (parse_bucket_nonempty (ascii "unzip/bucket/bXlidWNrZXQ=")).1 (by decide),
    by decide,
    (parse_bucket_nonempty (ascii "unzip/bucket/====")).2 (by decide) ⟨4, by decide⟩⟩

/-! ## The operation -/

/-- C4: when `Do` returns a result, its `Files` list is non-nil and has one
outcome per non-directory entry, none for a directory, in archive order: its
length is the number of non-directory entries and the keys are their names,
converted from GBK when a name is not valid UTF-8.  Without non-directory
entries the list is empty and non-nil. -/
theorem Do_files_follow_entries (w : World) (req : UfopRequest) (respData : GoString)
    (zipFiles : List ZipFile) (cd : GoString → GoString) (r : UnZipResult)
    (hget : w.httpGet [] req.Src.Url = .body respData)
    (hzip : w.zipNewReader respData = some zipFiles)
    (hcd : w.iconvOpen = some cd)
    (hres : (Do w req).result = some r) :
    ∃ fs, r.Files = some fs ∧
      fs.length = (zipFiles.filter (fun zf => !zf.IsDir)).length ∧
      fs.map (fun f => f.Key) = (zipFiles.filter (fun zf => !zf.IsDir)).map
        (fun zf => if utf8Valid zf.Name then zf.Name else cd zf.Name) ∧
      ((zipFiles.filter (fun zf => !zf.IsDir)) = [] → r.Files = some []) := by
  have herr : (Do w req).err = none := by
    rcases Do_exclusive w req with ⟨hnone, -⟩ | ⟨herr, -⟩
    · rw [hnone] at hres
      exact absurd hres (by simp)
    · exact herr
  obtain ⟨ext, hdo, -, hup, -⟩ := Do_ok w req respData zipFiles cd hget hzip hcd herr
  rw [hdo] at hres
  simp only [Option.some.injEq] at hres
  subst hres
  have hkeys : ((uploads ext).map (fun u => outcomeOf u.2.1 u.2.2)).map (fun f => f.Key)
      = (fileEntries zipFiles).map (entryKey cd) := by
    have := congrArg (List.map Prod.snd) hup
    simp only [List.map_map] at this
    rw [List.map_map]
    have hfun : ((fun f : UnZipFile => f.Key) ∘ fun u : Transport × GoString × Option GoString =>
        outcomeOf u.2.1 u.2.2) = (Prod.snd ∘ fun u => (u.1, u.2.1)) := by
      funext u
      obtain ⟨t, k, ret⟩ := u
      cases ret <;> rfl
    rw [hfun, this]
    rfl
  refine ⟨_, rfl, ?_, hkeys, ?_⟩
  · have := congrArg List.length hkeys
    simpa [fileEntries] using this
  · intro hnil
    have := congrArg List.length hkeys
    rw [show fileEntries zipFiles = [] from hnil] at this
    simp only [List.length_map, List.length_nil, List.length_eq_zero] at this
    simp [this]

/-- C4 on `sampleArchive`: four outcomes for one directory and four files, the
last key being the converted name. -/
theorem Do_files_follow_entries_witness :
    sampleWorld.httpGet [] sampleRequest.Src.Url = .body (ascii "PK") ∧
      sampleWorld.zipNewReader (ascii "PK") = some sampleArchive ∧
      sampleWorld.iconvOpen = some sampleConv ∧
      (Do sampleWorld sampleRequest).result = some ⟨some
        [⟨ascii "a.txt", ascii "hash a.txt", ""⟩,
          ⟨ascii "b.txt", [], "save unzip file to bucket error"⟩,
          ⟨ascii "big.bin", [], "save unzip file to bucket error"⟩,
          ⟨[0xE4, 0xB8, 0xAD], ascii "hash " ++ [0xE4, 0xB8, 0xAD], ""⟩]⟩ ∧
      ∃ fs, (UnZipResult.mk (some
        [⟨ascii "a.txt", ascii "hash a.txt", ""⟩,
          ⟨ascii "b.txt", [], "save unzip file to bucket error"⟩,
          ⟨ascii "big.bin", [], "save unzip file to bucket error"⟩,
          ⟨[0xE4, 0xB8, 0xAD], ascii "hash " ++ [0xE4, 0xB8, 0xAD], ""⟩])).Files = some fs ∧
        fs.length = (sampleArchive.filter (fun zf => !zf.IsDir)).length ∧
        fs.map (fun f => f.Key) = (sampleArchive.filter (fun zf => !zf.IsDir)).map
          (fun zf => if utf8Valid zf.Name then zf.Name else sampleConv zf.Name) ∧
        ((sampleArchive.filter (fun zf => !zf.IsDir)) = [] →
          (UnZipResult.mk (some
            [⟨ascii "a.txt", ascii "hash a.txt", ""⟩,
              ⟨ascii "b.txt", [], "save unzip file to bucket error"⟩,
              ⟨ascii "big.bin", [], "save unzip file to bucket error"⟩,
              ⟨[0xE4, 0xB8, 0xAD], ascii "hash " ++ [0xE4, 0xB8, 0xAD], ""⟩])).Files
            = some []) :=
  ⟨rfl, rfl, rfl, by decide,
    Do_files_follow_entries sampleWorld sampleRequest (ascii "PK") sampleArchive sampleConv _
      rfl rfl rfl (by decide)⟩

/-- C8: a request whose source mimetype is not `application/zip` fails with
`unsupported mimetype to unzip`, no result and no call at all, whatever its
command; a request with that mimetype and a command rejected by `parse` fails
with the error of `parse`, no result and no call at all. -/
theorem Do_rejects_before_any_call (w : World) (req : UfopRequest) :
    (req.Src.MimeType ≠ ascii "application/zip" →
        Do w req = ⟨none, some "unsupported mimetype to unzip", []⟩) ∧
      (req.Src.MimeType = ascii "application/zip" →
        ∀ e, (parse req.Cmd).err = some e → Do w req = ⟨none, some e, []⟩) := by
  constructor
  · intro hmime
    simp [Do, hmime]
  · intro hmime e hp
    simp [Do, hmime, hp]

/-- C8 on a malformed command, with a text source and with a zip source. -/
theorem Do_rejects_before_any_call_witness :
    (textRequest.Src.MimeType ≠ ascii "application/zip" ∧
      (parse textRequest.Cmd).err = some "invalid unzip command format" ∧
      Do sampleWorld textRequest = ⟨none, some "unsupported mimetype to unzip", []⟩) ∧
    (malformedRequest.Src.MimeType = ascii "application/zip" ∧
      (parse malformedRequest.Cmd).err = some "invalid unzip command format" ∧
      Do sampleWorld malformedRequest = ⟨none, some "invalid unzip command format", []⟩) :=
  ⟨⟨by decide, by decide,
      (Do_rejects_before_any_call sampleWorld textRequest).1 (by decide)⟩,
    ⟨rfl, by decide,
      (Do_rejects_before_any_call sampleWorld malformedRequest).2 rfl _ (by decide)⟩⟩

/-- C10: `Do` returns either an error and a nil result, or a nil error and a
result with a files list, never both and never neither; and when some
non-directory entry of the decoded archive cannot be opened or read it returns
the error and no result. -/
theorem Do_no_partial_result (w : World) (req : UfopRequest) :
    (((Do w req).result = none ∧ ∃ e, (Do w req).err = some e) ∨
        ((Do w req).err = none ∧ ∃ fs, (Do w req).result = some ⟨some fs⟩)) ∧
      ∀ (respData : GoString) (zipFiles : List ZipFile) (cd : GoString → GoString)
        (zf : ZipFile),
        req.Src.MimeType = ascii "application/zip" →
        (parse req.Cmd).err = none →
        w.httpGet [] req.Src.Url = .body respData →
        w.zipNewReader respData = some zipFiles →
        w.iconvOpen = some cd →
        zf ∈ zipFiles → zf.IsDir = false →
        (zf.Content = .openError ∨ zf.Content = .readError) →
        (Do w req).result = none ∧ ∃ e, (Do w req).err = some e := by
  refine ⟨Do_exclusive w req, ?_⟩
  intro respData zipFiles cd zf hmime hparse hget hzip hcd hmem hfile hbad
  rw [Do_eq_loop w req respData zipFiles cd hmime hparse hget hzip hcd]
  apply unzipLoop_fail
  intro hread
  obtain ⟨d, hd⟩ := hread zf hmem hfile
  rcases hbad with h | h <;> rw [h] at hd <;> exact absurd hd (by simp)

/-- C10 on `brokenArchive`: the first file is uploaded, the second cannot be
read, and `Do` returns the error alone. -/
theorem Do_no_partial_result_witness :
    (sampleRequest.Src.MimeType = ascii "application/zip" ∧
      (parse sampleRequest.Cmd).err = none ∧
      brokenWorld.httpGet [] sampleRequest.Src.Url = .body (ascii "PK") ∧
      brokenWorld.zipNewReader (ascii "PK") = some brokenArchive ∧
      brokenWorld.iconvOpen = some sampleConv ∧
      (⟨ascii "b.txt", false, 10, .readError⟩ : ZipFile) ∈ brokenArchive ∧
      uploads (Do brokenWorld sampleRequest).trace
        = [(Transport.singleShot, ascii "a.txt", some (ascii "hash a.txt"))]) ∧
    ((Do brokenWorld sampleRequest).result = none ∧
      ∃ e, (Do brokenWorld sampleRequest).err = some e) :=
  ⟨⟨rfl, by decide, rfl, rfl, rfl, by decide, by decide⟩,
    (Do_no_partial_result brokenWorld sampleRequest).2 (ascii "PK") brokenArchive sampleConv
      ⟨ascii "b.txt", false, 10, .readError⟩ rfl (by decide) rfl rfl rfl (by decide) rfl
      (Or.inr rfl)⟩

end Ufop
